import Mathlib

/-!
Shallow embedding of `mdbook-git-info` (sources: `src/git_history.rs`,
`src/preprocessor.rs`, `src/main.rs`).

The repository contains two parallel implementations of the preprocessor:

* the module pair `git_history.rs` + `preprocessor.rs` (`GitInfoPreprocessor`),
  which renders a five-column table and accumulates the first error, annotated
  with the chapter name;
* a self-contained duplicate inside `main.rs` (`GitInfo` + its own
  `enrich_chapter`), which renders a four-column table and panics on the first
  error.  `main()` instantiates this second one (`main.rs` declares no
  `mod preprocessor;` / `mod git_history;` items).

Both are embedded below; definitions prefixed with `main` come from `main.rs`.

Machine integers: exit codes are `i32` values modelled as `Int`; no arithmetic
overflows them in the modelled code.  Byte buffers (`Vec<u8>`) are `List Nat`
with each element `< 256` at use sites.  Fallible Rust code (`Result`) becomes
`Except`-style inductives; panics (`unwrap` / `expect` / `panic!`) are modelled
as an explicit `panicked` outcome, distinct from returned error values.
-/

namespace MdbookGitInfo

/-! ### Date-time model (chrono `DateTime<Utc>`)

`chrono::DateTime<Utc>` is modelled as a civil (proleptic Gregorian) date-time
already normalized to UTC.  `nano` keeps chrono's leap-second convention: a
parsed second of 60 is stored as second 59 with an extra 10^9 nanoseconds. -/

structure DateTimeUtc where
  year : Int
  month : Nat
  day : Nat
  hour : Nat
  minute : Nat
  second : Nat
  nano : Nat
deriving DecidableEq, Repr

/-- `git_history.rs` line 7: one entry of the git log (`GitHistoryEntry`).
`main.rs` line 190 defines the identical `GitLogEntry`; we share one type. -/
structure GitHistoryEntry where
  author : String
  timestamp : DateTimeUtc
deriving DecidableEq, Repr

/-! ### Aggregation (`preprocessor.rs` lines 50-63, `main.rs` lines 148-162)

The Rust code collects candidate authors into a `HashSet<&str>`, whose
iteration order is unspecified, and then sorts the resulting `Vec`
(`sort_unstable` in `preprocessor.rs`, the stable `sort` in `main.rs`; both are
ascending by `Ord` on `&str`, i.e. lexicographic on bytes).  We model the hash
set as `List.dedup` followed by `List.mergeSort`; the order-insensitivity of
this modelling choice is itself proved (claim C10) by quantifying over every
iteration order of the deduplicated set.  Note that `≤` on Lean `String`
compares scalar-value sequences lexicographically, which coincides with Rust's
byte-wise `Ord` on `str` because UTF-8 preserves code-point order. -/

/-- Lexicographic `≤` on character lists by code point.  On UTF-8 strings this
is exactly Rust's `Ord` on `str` (byte-wise comparison), since UTF-8 encoding
preserves code-point order. -/
def charListLe : List Char → List Char → Bool
  | [], _ => true
  | _ :: _, [] => false
  | a :: as, b :: bs =>
    if a < b then true
    else if b < a then false
    else charListLe as bs

/-- Rust's `Ord`-based `≤` on strings, as used by `sort_unstable`/`sort`. -/
def strLeb (a b : String) : Bool := charListLe a.data b.data

/-- The `filter_map` pipeline of `preprocessor.rs` lines 52-59: elements at
positions `1 ..= len-2` (`skip(1).take(len.saturating_sub(2))`), dropping any
entry whose author equals the author of `last_commit = history.first()`. -/
def candidateAuthors (history : List GitHistoryEntry) : List String :=
  ((history.drop 1).take (history.length - 2)).filterMap fun entry =>
    match history.head? with
    | some last => if last.author = entry.author then none else some entry.author
    | none => some entry.author

/-- The reduced view built by `enrich_chapter` (`preprocessor.rs` lines 50-63):
`last_commit = history.first()`, `first_commit = history.last()`, plus the
sorted deduplicated other contributors. -/
structure HistorySummary where
  last_commit : Option GitHistoryEntry
  first_commit : Option GitHistoryEntry
  other_contributors : List String
deriving DecidableEq, Repr

/-- Aggregation with an explicit `HashSet` iteration order `iterOrder`
(the list in which `collect::<Vec<_>>()` receives the deduplicated authors,
before `sort_unstable`). -/
def aggregateWithIter (history : List GitHistoryEntry) (iterOrder : List String) :
    HistorySummary :=
  { last_commit := history.head?
    first_commit := history.getLast?
    other_contributors := iterOrder.mergeSort strLeb }

/-- `preprocessor.rs` lines 50-63 with the canonical iteration order. -/
def aggregate (history : List GitHistoryEntry) : HistorySummary :=
  aggregateWithIter history (candidateAuthors history).dedup

/-! ### Date formatting (chrono `format("%d %b %Y")`)

`%d` is the day zero-padded to width 2, `%b` the English month abbreviation,
`%Y` the year zero-padded to width 4 (with a leading `-` for negative years).
Zero-padded numeric formatting is written by explicit digit extraction; the
`toString` fallbacks cover the out-of-width cases exactly as chrono prints
them (no truncation). -/

def digitChar (n : Nat) : Char := Char.ofNat (48 + n)

/-- Zero-padded width-2 decimal (`%d`). -/
def pad2 (n : Nat) : String :=
  if n < 100 then String.mk [digitChar (n / 10), digitChar (n % 10)]
  else toString n

/-- Zero-padded width-4 decimal. -/
def pad4 (n : Nat) : String :=
  if n < 10000 then
    String.mk [digitChar (n / 1000), digitChar (n / 100 % 10),
               digitChar (n / 10 % 10), digitChar (n % 10)]
  else toString n

/-- `%Y`: zero-padded to four digits, sign in front for negative years. -/
def formatYear (y : Int) : String :=
  if y < 0 then "-" ++ pad4 y.natAbs else pad4 y.toNat

def monthAbbrs : List String :=
  ["Jan", "Feb", "Mar", "Apr", "May", "Jun",
   "Jul", "Aug", "Sep", "Oct", "Nov", "Dec"]

/-- `%b` (months are 1-based; out-of-range is unreachable for dates built by
the calendar conversion). -/
def monthAbbr (m : Nat) : String := monthAbbrs.getD (m - 1) ""

/-- `timestamp.format("%d %b %Y")` as used in both render sites. -/
def formatDate (t : DateTimeUtc) : String :=
  pad2 t.day ++ " " ++ monthAbbr t.month ++ " " ++ formatYear t.year

/-! ### Rendering (`preprocessor.rs` lines 66-89 and `main.rs` lines 165-185)

The Rust format strings use `\`-continued lines, which splice the pieces
directly; the resulting literals are reproduced below. -/

/-- The constant markup preceding the table in both implementations. -/
def fragmentPrefix : String := "\n\n<br>\n\n---\n\n<br>\n\n"

/-- Header + separator rows of `preprocessor.rs` (five columns). -/
def tableHeader : String :=
  "| Created on | Created by | Last edit on | Last edit by | Other contributors |\n| :---: | :---: | :---: | :---: | --- |\n"

/-- Header + separator rows of `main.rs` (four columns). -/
def mainTableHeader : String :=
  "| Created on | Last edit on | By | Other contributors |\n| --- | --- | --- | --- |\n"

/-- The text appended by `preprocessor.rs` lines 66-89: prefix, five-column
header, and one data row substituting first-commit date/author, last-commit
date/author, and the contributors joined by `<br>`; absent commits render as
`n/a`. -/
def renderFragment (s : HistorySummary) : String :=
  fragmentPrefix ++ tableHeader ++
  "| **" ++ (match s.first_commit with
             | none => "n/a"
             | some c => formatDate c.timestamp) ++
  "** | **" ++ (match s.first_commit with
                | none => "n/a"
                | some c => c.author) ++
  "** | **" ++ (match s.last_commit with
                | none => "n/a"
                | some c => formatDate c.timestamp) ++
  "** | **" ++ (match s.last_commit with
                | none => "n/a"
                | some c => c.author) ++
  "** | " ++ String.intercalate "<br>" s.other_contributors ++ " |\n"

/-- The text appended by `main.rs` lines 165-185: prefix, four-column header,
and one data row substituting first-commit date, last-commit date, last-commit
author, and the joined contributors. -/
def mainRenderFragment (s : HistorySummary) : String :=
  fragmentPrefix ++ mainTableHeader ++
  "| **" ++ (match s.first_commit with
             | none => "n/a"
             | some c => formatDate c.timestamp) ++
  "** | **" ++ (match s.last_commit with
                | none => "n/a"
                | some c => formatDate c.timestamp) ++
  "** | **" ++ (match s.last_commit with
                | none => "n/a"
                | some c => c.author) ++
  "** | " ++ String.intercalate "<br>" s.other_contributors ++ " |\n"

/-! ### Calendar arithmetic

`chrono`'s conversion of a parsed fixed-offset date-time to UTC
(`.with_timezone(&Utc)`) shifts the civil date-time by the offset.  We realize
it with the standard civil-from-days / days-from-civil algorithms over the
proleptic Gregorian calendar (the same calendar chrono uses). -/

def isLeapYear (y : Int) : Bool :=
  (y % 4 == 0) && ((y % 100 != 0) || (y % 400 == 0))

def daysInMonth (y : Int) (m : Nat) : Nat :=
  match m with
  | 1 => 31
  | 2 => if isLeapYear y then 29 else 28
  | 3 => 31
  | 4 => 30
  | 5 => 31
  | 6 => 30
  | 7 => 31
  | 8 => 31
  | 9 => 30
  | 10 => 31
  | 11 => 30
  | 12 => 31
  | _ => 0

/-- Days since 1970-01-01 of a civil date. -/
def daysFromCivil (y : Int) (m d : Nat) : Int :=
  let yAdj : Int := if m ≤ 2 then y - 1 else y
  let era : Int := Int.fdiv yAdj 400
  let yoe : Nat := (yAdj - era * 400).toNat
  let mp : Nat := if m > 2 then m - 3 else m + 9
  let doy : Nat := (153 * mp + 2) / 5 + d - 1
  let doe : Nat := yoe * 365 + yoe / 4 - yoe / 100 + doy
  era * 146097 + (doe : Int) - 719468

/-- Civil date `(year, month, day)` of a count of days since 1970-01-01. -/
def civilFromDays (z0 : Int) : Int × Nat × Nat :=
  let z : Int := z0 + 719468
  let era : Int := Int.fdiv z 146097
  let doe : Nat := (z - era * 146097).toNat
  let yoe : Nat := (doe - doe / 1460 + doe / 36524 - doe / 146096) / 365
  let y : Int := (yoe : Int) + era * 400
  let doy : Nat := doe - (365 * yoe + yoe / 4 - yoe / 100)
  let mp : Nat := (5 * doy + 2) / 153
  let d : Nat := doy - (153 * mp + 2) / 5 + 1
  let m : Nat := if mp < 10 then mp + 3 else mp - 9
  (if m ≤ 2 then y + 1 else y, m, d)

/-- Convert a civil date-time carrying a fixed offset (in minutes east of UTC)
to the equivalent UTC civil date-time (`DateTime::with_timezone(&Utc)`). -/
def toUtc (loc : DateTimeUtc) (offsetMinutes : Int) : DateTimeUtc :=
  let days := daysFromCivil loc.year loc.month loc.day
  let secs : Int :=
    days * 86400 + (loc.hour * 3600 + loc.minute * 60 + loc.second : Nat)
      - offsetMinutes * 60
  let day : Int := Int.fdiv secs 86400
  let sod : Nat := (secs - day * 86400).toNat
  let ymd := civilFromDays day
  { year := ymd.1
    month := ymd.2.1
    day := ymd.2.2
    hour := sod / 3600
    minute := sod % 3600 / 60
    second := sod % 60
    nano := loc.nano }

/-! ### RFC 3339 parsing (chrono `DateTime::parse_from_rfc3339`)

The accepted grammar, following chrono's documented RFC 3339 behaviour:
`YYYY-MM-DDThh:mm:ss[.fff...][Z|+hh:mm|-hh:mm]`, where the `T` may also be
lowercase or a space, the `Z` may be lowercase, the fractional part needs at
least one digit when the dot is present (digits beyond nanosecond precision
are ignored), the civil fields must form a valid date-time (`hh ≤ 23`,
`mm ≤ 59`, seconds up to 60 for leap seconds, day valid for the month), and
nothing may follow the offset.  The result is converted to UTC. -/

def digitVal (c : Char) : Option Nat :=
  if c.isDigit then some (c.toNat - 48) else none

def read2 : List Char → Option (Nat × List Char)
  | c1 :: c2 :: cs => do
    let a ← digitVal c1
    let b ← digitVal c2
    pure (10 * a + b, cs)
  | _ => none

def read4 : List Char → Option (Nat × List Char)
  | c1 :: c2 :: c3 :: c4 :: cs => do
    let a ← digitVal c1
    let b ← digitVal c2
    let c ← digitVal c3
    let d ← digitVal c4
    pure (1000 * a + 100 * b + 10 * c + d, cs)
  | _ => none

def expectChar (c : Char) : List Char → Option (List Char)
  | d :: cs => if d = c then some cs else none
  | [] => none

/-- Longest prefix of decimal digits, as digit values. -/
def takeDigits : List Char → List Nat × List Char
  | [] => ([], [])
  | c :: cs =>
    match digitVal c with
    | some d =>
      let rest := takeDigits cs
      (d :: rest.1, rest.2)
    | none => ([], c :: cs)

/-- Nanoseconds denoted by a fractional-second digit string (at most nine
digits are significant). -/
def nanoOfDigits (ds : List Nat) : Nat :=
  (ds.take 9 ++ List.replicate (9 - ds.length) 0).foldl (fun a d => 10 * a + d) 0

/-- Offset suffix: `Z`, `z`, or `±hh:mm`; returned in minutes east of UTC. -/
def readOffset : List Char → Option (Int × List Char)
  | 'Z' :: cs => some (0, cs)
  | 'z' :: cs => some (0, cs)
  | '+' :: cs => do
    let (h, cs) ← read2 cs
    let cs ← expectChar ':' cs
    let (m, cs) ← read2 cs
    if h ≤ 23 ∧ m ≤ 59 then pure ((h * 60 + m : Nat), cs) else none
  | '-' :: cs => do
    let (h, cs) ← read2 cs
    let cs ← expectChar ':' cs
    let (m, cs) ← read2 cs
    if h ≤ 23 ∧ m ≤ 59 then pure (-((h * 60 + m : Nat) : Int), cs) else none
  | _ => none

/-- `YYYY-MM-DD` prefix: year, month, day and remaining characters. -/
def readDatePart (cs : List Char) : Option (Nat × Nat × Nat × List Char) := do
  let (y, cs) ← read4 cs
  let cs ← expectChar '-' cs
  let (mo, cs) ← read2 cs
  let cs ← expectChar '-' cs
  let (d, cs) ← read2 cs
  pure (y, mo, d, cs)

/-- The date/time separator: `T`, `t`, or a space. -/
def readSep : List Char → Option (List Char)
  | 'T' :: r => some r
  | 't' :: r => some r
  | ' ' :: r => some r
  | _ => none

/-- `hh:mm:ss` triple and remaining characters. -/
def readTimePart (cs : List Char) : Option (Nat × Nat × Nat × List Char) := do
  let (h, cs) ← read2 cs
  let cs ← expectChar ':' cs
  let (mi, cs) ← read2 cs
  let cs ← expectChar ':' cs
  let (sec, cs) ← read2 cs
  pure (h, mi, sec, cs)

/-- Optional `.digits` fraction, in nanoseconds (a bare dot is an error). -/
def readFraction : List Char → Option (Nat × List Char)
  | '.' :: r =>
    match takeDigits r with
    | ([], _) => none
    | (ds, rest) => some (nanoOfDigits ds, rest)
  | cs => some (0, cs)

/-- Range checks chrono performs when resolving the parsed fields. -/
def fieldsValid (y mo d h mi sec : Nat) : Bool :=
  decide (1 ≤ mo ∧ mo ≤ 12 ∧ 1 ≤ d ∧ d ≤ daysInMonth y mo ∧
    h ≤ 23 ∧ mi ≤ 59 ∧ sec ≤ 60)

/-- `DateTime::parse_from_rfc3339(s).map(|t| t.with_timezone(&Utc))`:
`none` models a `chrono::ParseError`. -/
def parseFromRfc3339 (s : String) : Option DateTimeUtc := do
  let (y, mo, d, cs) ← readDatePart s.toList
  let cs ← readSep cs
  let (h, mi, sec, cs) ← readTimePart cs
  let (nano, cs) ← readFraction cs
  let (offMin, cs) ← readOffset cs
  if cs.isEmpty ∧ fieldsValid y mo d h mi sec then
    let secNano := if sec = 60 then (59, nano + 1000000000) else (sec, nano)
    pure (toUtc ⟨y, mo, d, h, mi, secNano.1, secNano.2⟩ offMin)
  else
    none

/-! ### UTF-8 (Rust `String::from_utf8`)

`git` output is captured as a byte buffer; `extract` decodes it with
`String::from_utf8`, which is strict UTF-8 (overlong encodings, surrogates and
values beyond U+10FFFF are rejected). -/

/-- Decode one UTF-8 scalar value; returns the value and remaining bytes. -/
def decodeUtf8Char : List Nat → Option (Nat × List Nat)
  | [] => none
  | b :: bs =>
    if b < 0x80 then some (b, bs)
    else if 0xC2 ≤ b ∧ b ≤ 0xDF then
      match bs with
      | b1 :: bs1 =>
        if 0x80 ≤ b1 ∧ b1 ≤ 0xBF then some ((b - 0xC0) * 64 + (b1 - 0x80), bs1)
        else none
      | _ => none
    else if 0xE0 ≤ b ∧ b ≤ 0xEF then
      match bs with
      | b1 :: b2 :: bs2 =>
        let lo1 := if b = 0xE0 then 0xA0 else 0x80
        let hi1 := if b = 0xED then 0x9F else 0xBF
        if (lo1 ≤ b1 ∧ b1 ≤ hi1) ∧ (0x80 ≤ b2 ∧ b2 ≤ 0xBF) then
          some (((b - 0xE0) * 64 + (b1 - 0x80)) * 64 + (b2 - 0x80), bs2)
        else none
      | _ => none
    else if 0xF0 ≤ b ∧ b ≤ 0xF4 then
      match bs with
      | b1 :: b2 :: b3 :: bs3 =>
        let lo1 := if b = 0xF0 then 0x90 else 0x80
        let hi1 := if b = 0xF4 then 0x8F else 0xBF
        if (lo1 ≤ b1 ∧ b1 ≤ hi1) ∧ (0x80 ≤ b2 ∧ b2 ≤ 0xBF) ∧
            (0x80 ≤ b3 ∧ b3 ≤ 0xBF) then
          some ((((b - 0xF0) * 64 + (b1 - 0x80)) * 64 + (b2 - 0x80)) * 64
                  + (b3 - 0x80), bs3)
        else none
      | _ => none
    else none

/-- Fuel-indexed decoding loop; `decodeUtf8Char` consumes at least one byte per
step, so fuel equal to the buffer length never runs out. -/
def utf8DecodeAux : Nat → List Nat → Option (List Char)
  | _, [] => some []
  | 0, _ :: _ => none
  | fuel + 1, bytes => do
    let (v, rest) ← decodeUtf8Char bytes
    let cs ← utf8DecodeAux fuel rest
    pure (Char.ofNat v :: cs)

/-- `String::from_utf8`: `none` models `FromUtf8Error`. -/
def utf8Decode (bytes : List Nat) : Option String :=
  (utf8DecodeAux bytes.length bytes).map String.mk

/-- UTF-8 encoding of one scalar value (used to build concrete byte buffers). -/
def utf8EncodeChar (c : Char) : List Nat :=
  let n := c.toNat
  if n < 0x80 then [n]
  else if n < 0x800 then [0xC0 + n / 64, 0x80 + n % 64]
  else if n < 0x10000 then [0xE0 + n / 4096, 0x80 + n / 64 % 64, 0x80 + n % 64]
  else [0xF0 + n / 262144, 0x80 + n / 4096 % 64, 0x80 + n / 64 % 64, 0x80 + n % 64]

def utf8Encode (s : String) : List Nat :=
  (s.toList.map utf8EncodeChar).flatten

/-! ### Line parsing (`git_history.rs` lines 40-67)

Each line of the captured stdout is `trim_matches('"')`-stripped and split on
tab; `FromIterator for GitHistoryEntry` (lines 54-67) then calls
`it.next().unwrap()` twice and `DateTime::parse_from_rfc3339(..).unwrap()`.
A missing second field or an unparsable timestamp therefore panics (modelled as
`none`); fields beyond the second are silently ignored (`split` yields them,
but `from_iter` never asks for them). -/

/-- Split a character list at every occurrence of `sep` (Rust
`str::split(sep)`: always at least one piece, empty pieces kept). -/
def splitOnChar (sep : Char) : List Char → List (List Char)
  | [] => [[]]
  | c :: rest =>
    if c = sep then [] :: splitOnChar sep rest
    else
      match splitOnChar sep rest with
      | g :: gs => (c :: g) :: gs
      | [] => [[c]]

/-- Rust `str::trim_matches('"')`: strip every leading and trailing `"`. -/
def stripQuotes (s : String) : String :=
  String.mk (((s.toList.dropWhile (· = '"')).reverse.dropWhile (· = '"')).reverse)

/-- Rust `str::lines()`: split on `\n`, drop a final empty piece, and strip one
trailing `\r` from each line. -/
def rustLines (s : String) : List String :=
  let parts := splitOnChar '\n' s.toList
  let parts := if parts.getLast? = some [] then parts.dropLast else parts
  parts.map fun l => String.mk (if l.getLast? = some '\r' then l.dropLast else l)

/-- `line.trim_matches('"').split('\t')`, as a list of fields. -/
def splitFields (line : String) : List String :=
  (splitOnChar '\t' (stripQuotes line).toList).map String.mk

/-- `line.trim_matches('"').split('\t').collect::<GitHistoryEntry>()`;
`none` models the panic inside `from_iter`. -/
def parseLine (line : String) : Option GitHistoryEntry :=
  match splitFields line with
  | author :: ts :: _ =>
    (parseFromRfc3339 ts).map fun t => { author := author, timestamp := t }
  | _ => none

/-- `true` exactly when parsing the line would panic: fewer than two
tab-separated fields after quote-stripping, or an unparsable second field. -/
def lineMalformed (line : String) : Bool :=
  match splitFields line with
  | _ :: ts :: _ => (parseFromRfc3339 ts).isNone
  | _ => true

/-! ### `extract` (`git_history.rs` lines 13-52) -/

/-- Result of spawning `git log` and waiting for it: either the spawn/wait
itself failed (an `io::Error`), or we have a `std::process::Output` with an
exit status (`none` models death by signal, i.e. `code() == None`) and captured
stdout/stderr byte buffers. -/
inductive SpawnResult where
  | launchFailure
  | output (status : Option Int) (stdout stderr : List Nat)

/-- The error values `extract` can return (`anyhow::Error` values, named after
the spec's taxonomy).  `queryFailed` carries the exit code
(`status.code().unwrap_or(-1)`) and both captured streams, which the formatted
message embeds. -/
inductive ExtractError where
  | toolUnavailable
  | queryFailed (exitCode : Int) (stdout stderr : List Nat)
  | malformedOutput
deriving DecidableEq

/-- Outcome of `extract`: a returned `Ok`, a returned `Err`, or a panic
(`unwrap` on a malformed line aborts instead of returning). -/
inductive ExtractOutcome where
  | ok (entries : List GitHistoryEntry)
  | err (e : ExtractError)
  | panicked
deriving DecidableEq

/-- `git_history::extract`, as a function of the spawned process's result.
Order of checks mirrors the source: launch failure, then non-success status,
then UTF-8 decoding, then per-line parsing. -/
def extract (res : SpawnResult) : ExtractOutcome :=
  match res with
  | .launchFailure => .err .toolUnavailable
  | .output status stdout stderr =>
    if status ≠ some 0 then
      .err (.queryFailed (status.getD (-1)) stdout stderr)
    else
      match utf8Decode stdout with
      | none => .err .malformedOutput
      | some text =>
        match (rustLines text).mapM parseLine with
        | none => .panicked
        | some entries => .ok entries

/-! ### Book model (mdbook `Book`, `BookItem`, `Chapter`)

The mdbook crate is external; of `Chapter` we keep the fields the program
touches (`name`, `content`, `source_path`), and `Book.for_each_mut` is modelled
as the depth-first sequence of `BookItem`s it visits, so a book is a list of
items in traversal order. -/

structure Chapter where
  name : String
  content : String
  sourcePath : Option String
deriving DecidableEq, Repr

inductive BookItem where
  | chapter (c : Chapter)
  | separator
  | partTitle (title : String)
deriving DecidableEq, Repr

/-- An `anyhow::Error` as surfaced by the preprocessor: the extraction error
wrapped in `context` annotations, outermost first. -/
structure AnnotatedError where
  contexts : List String
  cause : ExtractError
deriving DecidableEq

/-! ### `enrich_chapter` and `run` (`preprocessor.rs` lines 22-92)

External process behaviour is a parameter: `env` maps the path passed to
`git log -- <path>` to that invocation's result.  `ctx.root.join(path)` is
modelled as string concatenation with a separator; no claim depends on path
normalization. -/

def pathJoin (root rel : String) : String := root ++ "/" ++ rel

/-- Outcome of `enrich_chapter`: the updated chapter, a returned error, or a
panic (`source_path.as_ref().unwrap()` on a draft chapter, or a malformed
line inside `extract`). -/
inductive EnrichOutcome where
  | ok (c : Chapter)
  | err (e : AnnotatedError)
  | panicked
deriving DecidableEq

/-- `preprocessor.rs` lines 45-92: extract history for
`ctx.root.join(chapter.source_path.unwrap())`, annotate any error with
`"Cannot extract git history"`, and on success append the rendered fragment to
the chapter's content. -/
def enrichChapter (env : String → SpawnResult) (root : String) (c : Chapter) :
    EnrichOutcome :=
  match c.sourcePath with
  | none => .panicked
  | some p =>
    match extract (env (pathJoin root p)) with
    | .panicked => .panicked
    | .err e => .err { contexts := ["Cannot extract git history"], cause := e }
    | .ok history =>
      .ok { c with content := c.content ++ renderFragment (aggregate history) }

/-- State of the `for_each_mut` traversal in `GitInfoPreprocessor::run`
(lines 24-35): the mutated item list plus the first error (annotated with the
chapter name), or a propagated panic. -/
inductive TraverseResult where
  | done (items : List BookItem) (firstError : Option AnnotatedError)
  | panicked
deriving DecidableEq

/-- The `for_each_mut` loop: each chapter is enriched in traversal order; once
an error is recorded the closure returns immediately, leaving every later item
(and the failing chapter itself) untouched. -/
def processItems (env : String → SpawnResult) (root : String) :
    List BookItem → TraverseResult
  | [] => .done [] none
  | .chapter c :: rest =>
    match enrichChapter env root c with
    | .panicked => .panicked
    | .err e =>
      .done (.chapter c :: rest)
        (some { contexts := ("Chapter name: " ++ c.name) :: e.contexts
                cause := e.cause })
    | .ok c' =>
      match processItems env root rest with
      | .done items e => .done (.chapter c' :: items) e
      | .panicked => .panicked
  | item :: rest =>
    match processItems env root rest with
    | .done items e => .done (item :: items) e
    | .panicked => .panicked

/-- Result of `GitInfoPreprocessor::run`: `Ok(book)` when no chapter failed,
otherwise `Err` with the recorded annotated error (the book, mutated or not,
is dropped); a panic propagates. -/
inductive RunOutcome where
  | ok (book : List BookItem)
  | err (e : AnnotatedError)
  | panicked
deriving DecidableEq

/-- `GitInfoPreprocessor::run` (lines 22-38):
`error.map_or_else(|| Ok(book), Err)` after the traversal. -/
def run (env : String → SpawnResult) (root : String) (book : List BookItem) :
    RunOutcome :=
  match processItems env root book with
  | .done items none => .ok items
  | .done _ (some e) => .err e
  | .panicked => .panicked

/-! ### The duplicate implementation inside `main.rs` (lines 76-208)

`main()` constructs `GitInfo`, whose `run` uses the local `enrich_chapter`
(line 98): the git path is `format!("src/{}", source_path)`, a non-zero exit
status yields the bare error `anyhow!("Git invocation failed")` (the captured
streams are only printed), invalid UTF-8 panics (`expect("valid utf-8")`), and
`GitInfo::run` (line 81) panics on any chapter error instead of returning it.
The aggregation (lines 148-162) is the same as in `preprocessor.rs` (its
stable `sort` sorts equal keys identically), so `aggregate` is reused. -/

/-- Error values `main.rs`'s `enrich_chapter` can return. -/
inductive MainError where
  | launchFailed
  | gitInvocationFailed
deriving DecidableEq

inductive MainEnrichOutcome where
  | ok (c : Chapter)
  | err (e : MainError)
  | panicked
deriving DecidableEq

/-- `main.rs` lines 98-188. -/
def mainEnrichChapter (env : String → SpawnResult) (c : Chapter) :
    MainEnrichOutcome :=
  match c.sourcePath with
  | none => .panicked
  | some p =>
    match env ("src/" ++ p) with
    | .launchFailure => .err .launchFailed
    | .output status stdout _ =>
      if status ≠ some 0 then .err .gitInvocationFailed
      else
        match utf8Decode stdout with
        | none => .panicked
        | some text =>
          match (rustLines text).mapM parseLine with
          | none => .panicked
          | some log =>
            .ok { c with content := c.content ++ mainRenderFragment (aggregate log) }

/-- `GitInfo::run` (`main.rs` lines 81-91): enrich every chapter, panicking at
the first failure (`none` models the aborted process; `some book` is
`Ok(book)`). -/
def mainRun (env : String → SpawnResult) : List BookItem → Option (List BookItem)
  | [] => some []
  | .chapter c :: rest =>
    match mainEnrichChapter env c with
    | .ok c' => (mainRun env rest).map (.chapter c' :: ·)
    | .err _ => none
    | .panicked => none
  | item :: rest => (mainRun env rest).map (item :: ·)

/-! ### Auxiliary predicates used in statements -/

/-- A well-formed civil timestamp as produced by RFC 3339 parsing: the year
fits in the four digits the format emits and month/day are calendar-valid
bounds.  (A parsed offset can in principle carry year 0 across into year -1,
where `%Y` prints five characters; such inputs are outside this predicate.) -/
def DateTimeUtc.wf (t : DateTimeUtc) : Bool :=
  decide (0 ≤ t.year ∧ t.year ≤ 9999 ∧
    1 ≤ t.month ∧ t.month ≤ 12 ∧ 1 ≤ t.day ∧ t.day ≤ 31)

/-- Both optional commits of a summary carry well-formed timestamps. -/
def summaryWF (s : HistorySummary) : Bool :=
  s.first_commit.all (fun c => c.timestamp.wf) &&
    s.last_commit.all (fun c => c.timestamp.wf)

/-- Shape of a `%d %b %Y` date cell: a two-digit day, an English month
abbreviation, and a four-digit year, space-separated. -/
def DateShaped (s : String) : Prop :=
  ∃ d b y, s = d ++ " " ++ b ++ " " ++ y ∧
    d.length = 2 ∧ (∀ c ∈ d.data, c.isDigit = true) ∧
    b ∈ monthAbbrs ∧
    y.length = 4 ∧ (∀ c ∈ y.data, c.isDigit = true)

/-- How the traversal may change one book item: a chapter keeps its name and
source path and only ever has text appended to its content; anything else is
untouched. -/
def ItemRel (old new : BookItem) : Prop :=
  match old, new with
  | .chapter c, .chapter c2 =>
    c2.name = c.name ∧ c2.sourcePath = c.sourcePath ∧
      ∃ s, c2.content = c.content ++ s
  | o, n => n = o

/-! ## Theorems -/

/-! ### Order properties of the sort comparator -/

theorem charListLe_trans : ∀ {l1 l2 l3 : List Char}, charListLe l1 l2 = true →
    charListLe l2 l3 = true → charListLe l1 l3 = true
  | [], _, _, _, _ => rfl
  | _ :: _, [], _, h12, _ => by simp [charListLe] at h12
  | _ :: _, _ :: _, [], _, h23 => by simp [charListLe] at h23
  | a :: as, b :: bs, c :: cs, h12, h23 => by
    simp only [charListLe] at h12 h23 ⊢
    rcases lt_trichotomy a b with hab | hab | hab
    · rcases lt_trichotomy b c with hbc | hbc | hbc
      · simp [lt_trans hab hbc]
      · subst hbc
        simp [hab]
      · simp [hbc, lt_asymm hbc] at h23
    · subst hab
      simp only [lt_irrefl, if_false] at h12
      rcases lt_trichotomy a c with hac | hac | hac
      · simp [hac]
      · subst hac
        simp only [lt_irrefl, if_false] at h23 ⊢
        exact charListLe_trans h12 h23
      · simp [hac, lt_asymm hac] at h23
    · simp [hab, lt_asymm hab] at h12

theorem charListLe_total : ∀ (l1 l2 : List Char),
    (charListLe l1 l2 || charListLe l2 l1) = true
  | [], _ => by simp [charListLe]
  | _ :: _, [] => by simp [charListLe]
  | a :: as, b :: bs => by
    simp only [charListLe]
    rcases lt_trichotomy a b with h | h | h
    · simp [h]
    · subst h
      simp only [lt_irrefl, if_false]
      exact charListLe_total as bs
    · simp [h, lt_asymm h]

theorem charListLe_antisymm : ∀ {l1 l2 : List Char}, charListLe l1 l2 = true →
    charListLe l2 l1 = true → l1 = l2
  | [], [], _, _ => rfl
  | [], _ :: _, _, h21 => by simp [charListLe] at h21
  | _ :: _, [], h12, _ => by simp [charListLe] at h12
  | a :: as, b :: bs, h12, h21 => by
    rcases lt_trichotomy a b with h | h | h
    · simp [charListLe, h, lt_asymm h] at h21
    · subst h
      simp only [charListLe, lt_irrefl, if_false] at h12 h21
      rw [charListLe_antisymm h12 h21]
    · simp [charListLe, h, lt_asymm h] at h12

theorem strLeb_trans {a b c : String} (h1 : strLeb a b = true) (h2 : strLeb b c = true) :
    strLeb a c = true :=
  charListLe_trans h1 h2

theorem strLeb_total (a b : String) : (strLeb a b || strLeb b a) = true :=
  charListLe_total a.data b.data

theorem strLeb_antisymm {a b : String} (h1 : strLeb a b = true) (h2 : strLeb b a = true) :
    a = b := by
  have h := charListLe_antisymm h1 h2
  cases a
  cases b
  exact congrArg String.mk h

/-- The executable comparator agrees with Mathlib's linear order on `String`
(both are lexicographic on the character sequence). -/
theorem charListLe_not_lex {as bs : List Char} (h : charListLe as bs = true) :
    ¬ List.Lex (· < ·) bs as := by
  intro hlt
  induction hlt with
  | nil => simp [charListLe] at h
  | @cons a l1 l2 hl ih =>
    simp only [charListLe, lt_irrefl, if_false] at h
    exact ih h
  | @rel a1 l1 a2 l2 hr =>
    simp [charListLe, hr, lt_asymm hr] at h

theorem strLeb_le {a b : String} (h : strLeb a b = true) : a ≤ b := by
  rw [String.le_iff_toList_le, ← not_lt]
  intro hlt
  exact charListLe_not_lex h hlt

/-! ### Aggregation facts -/

theorem mem_other_contributors {history : List GitHistoryEntry} {x : String} :
    x ∈ (aggregate history).other_contributors ↔ x ∈ candidateAuthors history := by
  simp only [aggregate, aggregateWithIter, List.mem_mergeSort, List.mem_dedup]

/-- C2: for every sequence of commit records, whatever the duplication of
author names, `other_contributors` never contains the author of `last_commit`
(the first element), even when that author also appears at older positions. -/
theorem c2_other_contributors_excludes_last_author
    (history : List GitHistoryEntry) (entry : GitHistoryEntry)
    (hhead : history.head? = some entry) :
    entry.author ∉ (aggregate history).other_contributors := by
  intro hmem
  rw [mem_other_contributors] at hmem
  simp only [candidateAuthors] at hmem
  rcases List.mem_filterMap.mp hmem with ⟨e, _, hf⟩
  rw [hhead] at hf
  have hf' : (if entry.author = e.author then none else some e.author) =
      some entry.author := hf
  by_cases hcase : entry.author = e.author
  · rw [if_pos hcase] at hf'
    exact Option.noConfusion hf'
  · rw [if_neg hcase] at hf'
    exact hcase (Option.some.inj hf').symm

/-- Witness for C2: the last-commit author `bob` also appears among the older
records yet is absent from `other_contributors`. -/
theorem c2_witness :
    ([⟨"bob", ⟨2024, 1, 3, 0, 0, 0, 0⟩⟩, ⟨"alice", ⟨2024, 1, 2, 0, 0, 0, 0⟩⟩,
      ⟨"bob", ⟨2024, 1, 1, 0, 0, 0, 0⟩⟩, ⟨"carol", ⟨2023, 1, 1, 0, 0, 0, 0⟩⟩] :
      List GitHistoryEntry).head? = some ⟨"bob", ⟨2024, 1, 3, 0, 0, 0, 0⟩⟩ ∧
    "bob" ∉ (aggregate [⟨"bob", ⟨2024, 1, 3, 0, 0, 0, 0⟩⟩,
      ⟨"alice", ⟨2024, 1, 2, 0, 0, 0, 0⟩⟩, ⟨"bob", ⟨2024, 1, 1, 0, 0, 0, 0⟩⟩,
      ⟨"carol", ⟨2023, 1, 1, 0, 0, 0, 0⟩⟩]).other_contributors :=
  ⟨rfl, c2_other_contributors_excludes_last_author
    [⟨"bob", ⟨2024, 1, 3, 0, 0, 0, 0⟩⟩, ⟨"alice", ⟨2024, 1, 2, 0, 0, 0, 0⟩⟩,
     ⟨"bob", ⟨2024, 1, 1, 0, 0, 0, 0⟩⟩, ⟨"carol", ⟨2023, 1, 1, 0, 0, 0, 0⟩⟩]
    ⟨"bob", ⟨2024, 1, 3, 0, 0, 0, 0⟩⟩ rfl⟩

/-- C3: the aggregation takes `last_commit` from the head of the sequence and
`first_commit` from its last element; they coincide on singletons and are both
absent on the empty sequence. -/
theorem c3_last_first_commit_selection (history : List GitHistoryEntry) :
    (∀ x xs, history = x :: xs →
      (aggregate history).last_commit = some x ∧
      (aggregate history).first_commit =
        some ((x :: xs).getLast (List.cons_ne_nil x xs))) ∧
    (∀ e, history = [e] →
      (aggregate history).first_commit = (aggregate history).last_commit) ∧
    (history = [] →
      (aggregate history).last_commit = none ∧
      (aggregate history).first_commit = none) := by
  refine ⟨?_, ?_, ?_⟩
  · rintro x xs rfl
    refine ⟨rfl, ?_⟩
    show (x :: xs).getLast? = some ((x :: xs).getLast (List.cons_ne_nil x xs))
    exact List.getLast?_eq_getLast_of_ne_nil _
  · rintro e rfl
    rfl
  · rintro rfl
    exact ⟨rfl, rfl⟩

/-- Witness for C3 on a concrete singleton history. -/
theorem c3_witness :
    (aggregate [⟨"ann", ⟨2024, 3, 5, 10, 0, 0, 0⟩⟩]).last_commit =
      some ⟨"ann", ⟨2024, 3, 5, 10, 0, 0, 0⟩⟩ ∧
    (aggregate [⟨"ann", ⟨2024, 3, 5, 10, 0, 0, 0⟩⟩]).first_commit =
      (aggregate [⟨"ann", ⟨2024, 3, 5, 10, 0, 0, 0⟩⟩]).last_commit :=
  ⟨((c3_last_first_commit_selection _).1 _ _ rfl).1,
   (c3_last_first_commit_selection _).2.1 _ rfl⟩

/-- C4: sequences of length at most two (in particular 0 and 1) produce no
other contributors, because the candidates are exactly the positions strictly
between the first and the last. -/
theorem c4_short_history_no_other_contributors (history : List GitHistoryEntry)
    (hlen : history.length ≤ 2) :
    (aggregate history).other_contributors = [] := by
  have h2 : history.length - 2 = 0 := by omega
  simp [aggregate, aggregateWithIter, candidateAuthors, h2]

/-- Witness for C4 on a concrete two-element history. -/
theorem c4_witness :
    (aggregate [⟨"a", ⟨2024, 1, 2, 0, 0, 0, 0⟩⟩,
      ⟨"b", ⟨2024, 1, 1, 0, 0, 0, 0⟩⟩]).other_contributors = [] :=
  c4_short_history_no_other_contributors _ (by decide)

/-- C5: for every input sequence, `other_contributors` is sorted ascending in
the byte/lexicographic string order and free of duplicates. -/
theorem c5_other_contributors_sorted_nodup (history : List GitHistoryEntry) :
    List.Sorted (· ≤ ·) (aggregate history).other_contributors ∧
    (aggregate history).other_contributors.Nodup := by
  constructor
  · have hp := @List.sorted_mergeSort String strLeb
      (fun a b c h1 h2 => strLeb_trans h1 h2) strLeb_total
      (candidateAuthors history).dedup
    exact List.Pairwise.imp (fun h => strLeb_le h) hp
  · exact ((List.mergeSort_perm _ _).nodup_iff).mpr (List.nodup_dedup _)

/-- C10: the summary and the rendered fragment do not depend on the iteration
order of the internal hash set: any two iteration orders of the deduplicated
candidate authors yield identical results (the final sort canonicalizes). -/
theorem c10_aggregation_deterministic (history : List GitHistoryEntry)
    (order1 order2 : List String)
    (h1 : order1.Perm (candidateAuthors history).dedup)
    (h2 : order2.Perm (candidateAuthors history).dedup) :
    aggregateWithIter history order1 = aggregateWithIter history order2 ∧
    renderFragment (aggregateWithIter history order1) =
      renderFragment (aggregateWithIter history order2) ∧
    aggregate history = aggregateWithIter history (candidateAuthors history).dedup := by
  haveI : IsAntisymm String (fun a b => strLeb a b = true) :=
    ⟨fun a b ha hb => strLeb_antisymm ha hb⟩
  have key : order1.mergeSort strLeb = order2.mergeSort strLeb := by
    apply @List.eq_of_perm_of_sorted String (fun a b => strLeb a b = true) _
    · exact ((List.mergeSort_perm order1 strLeb).trans
        (h1.trans h2.symm)).trans (List.mergeSort_perm order2 strLeb).symm
    · exact @List.sorted_mergeSort String strLeb
        (fun a b c ha hb => strLeb_trans ha hb) strLeb_total order1
    · exact @List.sorted_mergeSort String strLeb
        (fun a b c ha hb => strLeb_trans ha hb) strLeb_total order2
  have heq : aggregateWithIter history order1 = aggregateWithIter history order2 := by
    unfold aggregateWithIter
    rw [key]
  exact ⟨heq, by rw [heq], rfl⟩

/-- Witness for C10: two opposite iteration orders of the same two-author
deduplicated set give the same summary. -/
theorem c10_witness :
    aggregateWithIter [⟨"d", ⟨2024, 1, 5, 0, 0, 0, 0⟩⟩, ⟨"b", ⟨2024, 1, 4, 0, 0, 0, 0⟩⟩,
      ⟨"c", ⟨2024, 1, 3, 0, 0, 0, 0⟩⟩, ⟨"b", ⟨2024, 1, 2, 0, 0, 0, 0⟩⟩,
      ⟨"a", ⟨2024, 1, 1, 0, 0, 0, 0⟩⟩] ["b", "c"] =
    aggregateWithIter [⟨"d", ⟨2024, 1, 5, 0, 0, 0, 0⟩⟩, ⟨"b", ⟨2024, 1, 4, 0, 0, 0, 0⟩⟩,
      ⟨"c", ⟨2024, 1, 3, 0, 0, 0, 0⟩⟩, ⟨"b", ⟨2024, 1, 2, 0, 0, 0, 0⟩⟩,
      ⟨"a", ⟨2024, 1, 1, 0, 0, 0, 0⟩⟩] ["c", "b"] :=
  (c10_aggregation_deterministic _ ["b", "c"] ["c", "b"] (by decide) (by decide)).1

/-! ### Line-parsing facts -/

theorem parseLine_none_iff (line : String) :
    parseLine line = none ↔ lineMalformed line = true := by
  cases h : splitFields line with
  | nil => simp [parseLine, lineMalformed, h]
  | cons a rest =>
    cases rest with
    | nil => simp [parseLine, lineMalformed, h]
    | cons ts rest2 =>
      simp [parseLine, lineMalformed, h, Option.map_eq_none',
        Option.isNone_iff_eq_none]

theorem mapM_parseLine_eq_none {l : List String} {x : String}
    (hx : x ∈ l) (hnone : parseLine x = none) :
    l.mapM parseLine = none := by
  induction l with
  | nil => cases hx
  | cons a as ih =>
    rw [List.mapM_cons]
    rcases List.mem_cons.mp hx with rfl | hx2
    · rw [hnone]
      rfl
    · cases ha : parseLine a
      · rfl
      · rw [ih hx2]
        rfl

/-- C1 counterexample: a captured line with three tab-separated fields (whose
second field is a valid timestamp) does not split into exactly two fields, so
by the claim extraction should return a `MalformedOutput` error; instead the
code accepts it, building a record from the first two fields and silently
ignoring the third. -/
theorem c1_counterexample :
    extract (.output (some 0)
        (utf8Encode "\"a\t2024-03-05T10:00:00+00:00\tx\"\n") []) =
      .ok [⟨"a", ⟨2024, 3, 5, 10, 0, 0, 0⟩⟩] ∧
    ∀ e, extract (.output (some 0)
        (utf8Encode "\"a\t2024-03-05T10:00:00+00:00\tx\"\n") []) ≠ .err e := by
  have h1 : extract (.output (some 0)
      (utf8Encode "\"a\t2024-03-05T10:00:00+00:00\tx\"\n") []) =
      .ok [⟨"a", ⟨2024, 3, 5, 10, 0, 0, 0⟩⟩] := by decide
  refine ⟨h1, fun e h => ?_⟩
  rw [h1] at h
  exact ExtractOutcome.noConfusion h

/-- C1 (amended): a line that, after quote-stripping, splits into fewer than
two tab-separated fields, or whose second field does not parse as an RFC 3339
date-time with offset, makes the extraction panic (the `unwrap` calls in
`from_iter` abort the process) rather than return a `MalformedOutput` error
value — so no silently-wrong record is produced, but no error value is
returned either; and a line with more than two fields whose second field
parses is accepted, its extra fields silently ignored (see the
counterexample). -/
theorem c1_extraction_panics_on_malformed_line
    (stdout stderr : List Nat) (text : String)
    (hdec : utf8Decode stdout = some text)
    (hbad : ∃ l ∈ rustLines text, lineMalformed l = true) :
    extract (.output (some 0) stdout stderr) = .panicked := by
  rcases hbad with ⟨l, hl, hbad⟩
  have hnone : parseLine l = none := (parseLine_none_iff l).mpr hbad
  have hmapm : (rustLines text).mapM parseLine = none :=
    mapM_parseLine_eq_none hl hnone
  have hloop : List.mapM.loop parseLine (rustLines text) [] = none := hmapm
  simp [extract, hdec, hloop]

/-- Witness for C1 at a one-field line (`git` output without a tab). -/
theorem c1_witness :
    extract (.output (some 0) (utf8Encode "\"onlyauthor\"\n") []) = .panicked :=
  c1_extraction_panics_on_malformed_line _ _ "\"onlyauthor\"\n" (by decide)
    ⟨"\"onlyauthor\"", by decide, by decide⟩

/-- C7: a non-zero (or signal) exit status of the log query makes `extract`
return a `QueryFailed` error carrying the exit code
(`status.code().unwrap_or(-1)`) and both captured streams; `enrich_chapter`
forwards it (annotated) without touching the chapter, whose content is
unchanged in the traversal state. -/
theorem c7_query_failure_propagates (status : Option Int) (stdout stderr : List Nat)
    (hfail : status ≠ some 0) :
    extract (.output status stdout stderr) =
      .err (.queryFailed (status.getD (-1)) stdout stderr) ∧
    ∀ (env : String → SpawnResult) (root : String) (c : Chapter) (p : String)
      (rest : List BookItem),
      c.sourcePath = some p →
      env (pathJoin root p) = .output status stdout stderr →
      enrichChapter env root c =
        .err { contexts := ["Cannot extract git history"]
               cause := .queryFailed (status.getD (-1)) stdout stderr } ∧
      processItems env root (.chapter c :: rest) =
        .done (.chapter c :: rest)
          (some { contexts := ["Chapter name: " ++ c.name,
                               "Cannot extract git history"]
                  cause := .queryFailed (status.getD (-1)) stdout stderr }) := by
  have hex : extract (.output status stdout stderr) =
      .err (.queryFailed (status.getD (-1)) stdout stderr) := by
    simp [extract, hfail]
  refine ⟨hex, ?_⟩
  intro env root c p rest hp henv
  have hen : enrichChapter env root c =
      .err { contexts := ["Cannot extract git history"]
             cause := .queryFailed (status.getD (-1)) stdout stderr } := by
    simp [enrichChapter, hp, henv, hex]
  exact ⟨hen, by simp [processItems, hen]⟩

/-- Witness for C7: exit status 1 with concrete one-byte streams. -/
theorem c7_witness :
    extract (.output (some 1) [104] [105]) = .err (.queryFailed 1 [104] [105]) ∧
    processItems (fun _ => .output (some 1) [104] [105]) "r"
        [.chapter ⟨"ch", "text", some "p.md"⟩] =
      .done [.chapter ⟨"ch", "text", some "p.md"⟩]
        (some { contexts := ["Chapter name: ch", "Cannot extract git history"]
                cause := .queryFailed 1 [104] [105] }) :=
  ⟨(c7_query_failure_propagates (some 1) [104] [105] (by decide)).1,
   ((c7_query_failure_propagates (some 1) [104] [105] (by decide)).2
      (fun _ => .output (some 1) [104] [105]) "r" ⟨"ch", "text", some "p.md"⟩
      "p.md" [] rfl rfl).2⟩

/-! ### Date-cell shape facts -/

theorem pad2_shape {n : Nat} (h : n < 100) :
    (pad2 n).length = 2 ∧ ∀ c ∈ (pad2 n).data, c.isDigit = true := by
  have hd : ∀ d, d < 10 → (digitChar d).isDigit = true := by decide
  rw [pad2, if_pos h]
  refine ⟨rfl, ?_⟩
  intro c hc
  rcases List.mem_cons.mp hc with rfl | hc2
  · exact hd _ (by omega)
  · rcases List.mem_cons.mp hc2 with rfl | hc3
    · exact hd _ (by omega)
    · cases hc3

theorem pad4_shape {n : Nat} (h : n < 10000) :
    (pad4 n).length = 4 ∧ ∀ c ∈ (pad4 n).data, c.isDigit = true := by
  have hd : ∀ d, d < 10 → (digitChar d).isDigit = true := by decide
  rw [pad4, if_pos h]
  refine ⟨rfl, ?_⟩
  intro c hc
  simp only [String.mk, List.mem_cons, List.not_mem_nil, or_false] at hc
  rcases hc with rfl | rfl | rfl | rfl
  · exact hd _ (by omega)
  · exact hd _ (by omega)
  · exact hd _ (by omega)
  · exact hd _ (by omega)

theorem formatYear_shape {y : Int} (h0 : 0 ≤ y) (h1 : y ≤ 9999) :
    (formatYear y).length = 4 ∧ ∀ c ∈ (formatYear y).data, c.isDigit = true := by
  rw [formatYear, if_neg (by omega)]
  exact pad4_shape (by omega)

theorem monthAbbr_mem {m : Nat} (h1 : 1 ≤ m) (h12 : m ≤ 12) :
    monthAbbr m ∈ monthAbbrs := by
  have key : ∀ k, k < 13 → 1 ≤ k → monthAbbr k ∈ monthAbbrs := by decide
  exact key m (by omega) h1

theorem dateShaped_formatDate {t : DateTimeUtc} (h : t.wf = true) :
    DateShaped (formatDate t) := by
  rw [DateTimeUtc.wf, decide_eq_true_eq] at h
  obtain ⟨hy0, hy1, hm1, hm2, hd1, hd2⟩ := h
  obtain ⟨hl2, hdig2⟩ := pad2_shape (n := t.day) (by omega)
  obtain ⟨hl4, hdig4⟩ := formatYear_shape hy0 hy1
  exact ⟨pad2 t.day, monthAbbr t.month, formatYear t.year, rfl,
    hl2, hdig2, monthAbbr_mem hm1 hm2, hl4, hdig4⟩

/-- C6 counterexample: at the empty summary, the renderer actually wired into
`main()` emits a four-column row (`Created on`, `Last edit on`, `By`,
`Other contributors`), not the claimed five-column row — it also differs from
the five-column fragment of the preprocessor module. -/
theorem c6_counterexample :
    mainRenderFragment ⟨none, none, []⟩ =
      "\n\n<br>\n\n---\n\n<br>\n\n| Created on | Last edit on | By | Other contributors |\n| --- | --- | --- | --- |\n| **n/a** | **n/a** | **n/a** |  |\n" ∧
    mainRenderFragment ⟨none, none, []⟩ ≠ renderFragment ⟨none, none, []⟩ := by
  constructor
  · decide
  · decide

/-- C6 (amended): the preprocessor module's rendering produces the constant
prefix and five-column header followed by one data row whose four date/author
cells are `n/a` when the respective commit is absent, are `%d %b %Y`-shaped
dates / the commit author when present, and whose fifth cell is the
`<br>`-joined contributors (empty for no contributors); the binary's
duplicated renderer instead emits a four-column row reusing the first-commit
date, last-commit date and last-commit author cells. -/
theorem c6_render_table_shape (s : HistorySummary) (hwf : summaryWF s = true) :
    ∃ c1 c2 c3 c4,
      renderFragment s =
        fragmentPrefix ++ tableHeader ++
        "| **" ++ c1 ++ "** | **" ++ c2 ++ "** | **" ++ c3 ++ "** | **" ++ c4 ++
        "** | " ++ String.intercalate "<br>" s.other_contributors ++ " |\n" ∧
      mainRenderFragment s =
        fragmentPrefix ++ mainTableHeader ++
        "| **" ++ c1 ++ "** | **" ++ c3 ++ "** | **" ++ c4 ++
        "** | " ++ String.intercalate "<br>" s.other_contributors ++ " |\n" ∧
      (s.first_commit = none → c1 = "n/a" ∧ c2 = "n/a") ∧
      (s.last_commit = none → c3 = "n/a" ∧ c4 = "n/a") ∧
      (∀ c, s.first_commit = some c → DateShaped c1 ∧ c2 = c.author) ∧
      (∀ c, s.last_commit = some c → DateShaped c3 ∧ c4 = c.author) ∧
      (s.other_contributors = [] →
        String.intercalate "<br>" s.other_contributors = "") := by
  rw [summaryWF, Bool.and_eq_true] at hwf
  obtain ⟨hwf1, hwf2⟩ := hwf
  refine ⟨(match s.first_commit with
           | none => "n/a"
           | some c => formatDate c.timestamp),
          (match s.first_commit with
           | none => "n/a"
           | some c => c.author),
          (match s.last_commit with
           | none => "n/a"
           | some c => formatDate c.timestamp),
          (match s.last_commit with
           | none => "n/a"
           | some c => c.author),
          rfl, rfl, ?_, ?_, ?_, ?_, ?_⟩
  · intro h
    rw [h]
    exact ⟨rfl, rfl⟩
  · intro h
    rw [h]
    exact ⟨rfl, rfl⟩
  · intro c h
    rw [h] at hwf1 ⊢
    rw [Option.all_some] at hwf1
    exact ⟨dateShaped_formatDate hwf1, rfl⟩
  · intro c h
    rw [h] at hwf2 ⊢
    rw [Option.all_some] at hwf2
    exact ⟨dateShaped_formatDate hwf2, rfl⟩
  · intro h
    rw [h]
    rfl

/-- Witness for C6 at the empty summary (scenario D: every date/author cell is
`n/a`, the contributors cell empty). -/
theorem c6_witness :
    summaryWF ⟨none, none, []⟩ = true ∧
    ∃ c1 c2 c3 c4,
      renderFragment ⟨none, none, []⟩ =
        fragmentPrefix ++ tableHeader ++
        "| **" ++ c1 ++ "** | **" ++ c2 ++ "** | **" ++ c3 ++ "** | **" ++ c4 ++
        "** | " ++
        String.intercalate "<br>" (HistorySummary.other_contributors ⟨none, none, []⟩) ++
        " |\n" ∧
      mainRenderFragment ⟨none, none, []⟩ =
        fragmentPrefix ++ mainTableHeader ++
        "| **" ++ c1 ++ "** | **" ++ c3 ++ "** | **" ++ c4 ++
        "** | " ++
        String.intercalate "<br>" (HistorySummary.other_contributors ⟨none, none, []⟩) ++
        " |\n" ∧
      (HistorySummary.first_commit ⟨none, none, []⟩ = none → c1 = "n/a" ∧ c2 = "n/a") ∧
      (HistorySummary.last_commit ⟨none, none, []⟩ = none → c3 = "n/a" ∧ c4 = "n/a") ∧
      (∀ c, HistorySummary.first_commit ⟨none, none, []⟩ = some c →
        DateShaped c1 ∧ c2 = c.author) ∧
      (∀ c, HistorySummary.last_commit ⟨none, none, []⟩ = some c →
        DateShaped c3 ∧ c4 = c.author) ∧
      (HistorySummary.other_contributors ⟨none, none, []⟩ = [] →
        String.intercalate "<br>"
          (HistorySummary.other_contributors ⟨none, none, []⟩) = "") :=
  ⟨by decide, c6_render_table_shape ⟨none, none, []⟩ (by decide)⟩

/-! ### Traversal facts -/

theorem processItems_append (env : String → SpawnResult) (root : String)
    (pre : List BookItem) :
    ∀ (pre2 rest : List BookItem),
    processItems env root pre = .done pre2 none →
    processItems env root (pre ++ rest) =
      match processItems env root rest with
      | .done items e => .done (pre2 ++ items) e
      | .panicked => .panicked := by
  induction pre with
  | nil =>
    intro pre2 rest h
    simp only [processItems] at h
    cases h
    cases hr : processItems env root rest with
    | done items e => simp [hr]
    | panicked => simp [hr]
  | cons item items ih =>
    intro pre2 rest h
    cases item with
    | chapter c =>
      cases he : enrichChapter env root c with
      | panicked => simp [processItems, he] at h
      | err e2 => simp [processItems, he] at h
      | ok c2 =>
        cases hp : processItems env root items with
        | panicked => simp [processItems, he, hp] at h
        | done its e =>
          simp only [processItems, he, hp] at h
          cases e with
          | some e3 => simp at h
          | none =>
            simp only [TraverseResult.done.injEq] at h
            obtain ⟨h1, -⟩ := h
            subst h1
            rw [List.cons_append]
            simp only [processItems, he, ih its rest hp]
            cases hr : processItems env root rest with
            | done items2 e2 => simp [hr]
            | panicked => simp [hr]
    | separator =>
      cases hp : processItems env root items with
      | panicked => simp [processItems, hp] at h
      | done its e =>
        simp only [processItems, hp] at h
        cases e with
        | some e3 => simp at h
        | none =>
          simp only [TraverseResult.done.injEq] at h
          obtain ⟨h1, -⟩ := h
          subst h1
          rw [List.cons_append]
          simp only [processItems, ih its rest hp]
          cases hr : processItems env root rest with
          | done items2 e2 => simp [hr]
          | panicked => simp [hr]
    | partTitle t =>
      cases hp : processItems env root items with
      | panicked => simp [processItems, hp] at h
      | done its e =>
        simp only [processItems, hp] at h
        cases e with
        | some e3 => simp at h
        | none =>
          simp only [TraverseResult.done.injEq] at h
          obtain ⟨h1, -⟩ := h
          subst h1
          rw [List.cons_append]
          simp only [processItems, ih its rest hp]
          cases hr : processItems env root rest with
          | done items2 e2 => simp [hr]
          | panicked => simp [hr]

/-- C8 counterexample: the run operation wired into `main()` (`GitInfo::run`)
does not return a failure annotated with the chapter identity when extraction
fails — it panics, aborting the process (`none`), so no failure value at all
is returned to the caller. -/
theorem c8_counterexample :
    mainRun (fun _ => .output (some 1) [] [])
        [.chapter ⟨"ch1", "hello", some "ch1.md"⟩] = none ∧
    ∀ b, mainRun (fun _ => .output (some 1) [] [])
        [.chapter ⟨"ch1", "hello", some "ch1.md"⟩] ≠ some b := by
  have h : mainRun (fun _ => .output (some 1) [] [])
      [.chapter ⟨"ch1", "hello", some "ch1.md"⟩] = none := by decide
  refine ⟨h, fun b hb => ?_⟩
  rw [h] at hb
  exact Option.noConfusion hb

/-- C8 (amended): in the module implementation (`GitInfoPreprocessor::run`),
whatever the traversal order, once a chapter's extraction fails every earlier
item keeps its (successfully enriched) value, the failing chapter and every
later item are left untouched, and the run returns the failure annotated with
that chapter's name; the binary's `GitInfo::run`, by contrast, panics at the
first failing chapter instead of returning an annotated failure (see the
counterexample). -/
theorem c8_fail_fast_annotated (env : String → SpawnResult) (root : String)
    (pre pre2 post : List BookItem) (c : Chapter) (e : AnnotatedError)
    (hpre : processItems env root pre = .done pre2 none)
    (hc : enrichChapter env root c = .err e) :
    processItems env root (pre ++ .chapter c :: post) =
      .done (pre2 ++ .chapter c :: post)
        (some { contexts := ("Chapter name: " ++ c.name) :: e.contexts
                cause := e.cause }) ∧
    run env root (pre ++ .chapter c :: post) =
      .err { contexts := ("Chapter name: " ++ c.name) :: e.contexts
             cause := e.cause } := by
  have h1 := processItems_append env root pre pre2 (.chapter c :: post) hpre
  have h2 : processItems env root (.chapter c :: post) =
      .done (.chapter c :: post)
        (some { contexts := ("Chapter name: " ++ c.name) :: e.contexts
                cause := e.cause }) := by
    simp [processItems, hc]
  rw [h2] at h1
  exact ⟨h1, by simp [run, h1]⟩

/-- Witness for C8: a one-chapter book followed by a separator, with the log
query failing with exit status 1: the traversal keeps both items untouched and
the run returns the chapter-annotated error. -/
theorem c8_witness :
    processItems (fun _ => .output (some 1) [] []) "r"
        [.chapter ⟨"ch", "txt", some "p.md"⟩, .separator] =
      .done [.chapter ⟨"ch", "txt", some "p.md"⟩, .separator]
        (some { contexts := ["Chapter name: ch", "Cannot extract git history"]
                cause := .queryFailed 1 [] [] }) ∧
    run (fun _ => .output (some 1) [] []) "r"
        [.chapter ⟨"ch", "txt", some "p.md"⟩, .separator] =
      .err { contexts := ["Chapter name: ch", "Cannot extract git history"]
             cause := .queryFailed 1 [] [] } :=
  c8_fail_fast_annotated (fun _ => .output (some 1) [] []) "r" [] []
    [.separator] ⟨"ch", "txt", some "p.md"⟩
    { contexts := ["Cannot extract git history"], cause := .queryFailed 1 [] [] }
    rfl (by decide)

/-! ### Frame facts -/

theorem itemRel_refl (item : BookItem) : ItemRel item item := by
  cases item with
  | chapter c => exact ⟨rfl, rfl, "", by simp⟩
  | separator => rfl
  | partTitle t => rfl

theorem forall2_itemRel_refl : ∀ l : List BookItem, List.Forall₂ ItemRel l l
  | [] => List.Forall₂.nil
  | item :: rest => List.Forall₂.cons (itemRel_refl item) (forall2_itemRel_refl rest)

theorem enrichChapter_ok_shape {env : String → SpawnResult} {root : String}
    {c c2 : Chapter} (h : enrichChapter env root c = .ok c2) :
    c2.name = c.name ∧ c2.sourcePath = c.sourcePath ∧
      ∃ s, c2.content = c.content ++ s := by
  unfold enrichChapter at h
  cases hsp : c.sourcePath with
  | none => rw [hsp] at h; exact EnrichOutcome.noConfusion h
  | some p =>
    rw [hsp] at h
    have h1 : (match extract (env (pathJoin root p)) with
        | ExtractOutcome.panicked => EnrichOutcome.panicked
        | ExtractOutcome.err e =>
          EnrichOutcome.err { contexts := ["Cannot extract git history"], cause := e }
        | ExtractOutcome.ok history =>
          EnrichOutcome.ok
            { name := c.name
              content := c.content ++ renderFragment (aggregate history)
              sourcePath := some p }) =
        EnrichOutcome.ok c2 := h
    cases hex : extract (env (pathJoin root p)) with
    | panicked => rw [hex] at h1; exact EnrichOutcome.noConfusion h1
    | err e => rw [hex] at h1; exact EnrichOutcome.noConfusion h1
    | ok history =>
      rw [hex] at h1
      have h2 : ({ name := c.name
                   content := c.content ++ renderFragment (aggregate history)
                   sourcePath := some p } : Chapter) = c2 := EnrichOutcome.ok.inj h1
      exact ⟨by rw [← h2], by rw [← h2], renderFragment (aggregate history), by rw [← h2]⟩

/-- C9: whenever the traversal completes without a panic (with or without a
recorded error), every book item is related to its original: chapters keep
their name and source path and their old content is a prefix of the new one
(only appended to), and non-chapter items are entirely unchanged. -/
theorem c9_append_only_frame (env : String → SpawnResult) (root : String) :
    ∀ (items items2 : List BookItem) (e? : Option AnnotatedError),
    processItems env root items = .done items2 e? →
    List.Forall₂ ItemRel items items2 := by
  intro items
  induction items with
  | nil =>
    intro items2 e? h
    simp only [processItems] at h
    cases h
    exact List.Forall₂.nil
  | cons item rest ih =>
    intro items2 e? h
    cases item with
    | chapter c =>
      cases he : enrichChapter env root c with
      | panicked => simp [processItems, he] at h
      | err e2 =>
        simp only [processItems, he, TraverseResult.done.injEq] at h
        obtain ⟨h1, -⟩ := h
        subst h1
        exact forall2_itemRel_refl _
      | ok c2 =>
        cases hp : processItems env root rest with
        | panicked => simp [processItems, he, hp] at h
        | done its e =>
          simp only [processItems, he, hp, TraverseResult.done.injEq] at h
          obtain ⟨h1, -⟩ := h
          subst h1
          exact List.Forall₂.cons (enrichChapter_ok_shape he) (ih its e hp)
    | separator =>
      cases hp : processItems env root rest with
      | panicked => simp [processItems, hp] at h
      | done its e =>
        simp only [processItems, hp, TraverseResult.done.injEq] at h
        obtain ⟨h1, -⟩ := h
        subst h1
        exact List.Forall₂.cons (itemRel_refl _) (ih its e hp)
    | partTitle t =>
      cases hp : processItems env root rest with
      | panicked => simp [processItems, hp] at h
      | done its e =>
        simp only [processItems, hp, TraverseResult.done.injEq] at h
        obtain ⟨h1, -⟩ := h
        subst h1
        exact List.Forall₂.cons (itemRel_refl _) (ih its e hp)

set_option maxRecDepth 8000 in
unseal List.merge List.mergeSort in
/-- Witness for C9: a successfully processed chapter has the fragment appended
to its former content, and the separator after it is untouched. -/
theorem c9_witness :
    List.Forall₂ ItemRel
      [.chapter ⟨"ch", "hi", some "p"⟩, .separator]
      [.chapter ⟨"ch", "hi" ++ renderFragment (aggregate []), some "p"⟩, .separator] :=
  c9_append_only_frame (fun _ => .output (some 0) [] []) "r"
    [.chapter ⟨"ch", "hi", some "p"⟩, .separator]
    [.chapter ⟨"ch", "hi" ++ renderFragment (aggregate []), some "p"⟩, .separator]
    none (by decide)

end MdbookGitInfo
